import Mathlib

/-!
Shallow embedding of `src/uma8.cpp` (node-uma8): a libusb-based driver for
the UMA-8 microphone array.  The worker-side completion callbacks
(`Input::transferCallback`, `Input::irqCallback`), the `uv_async` delivery
handler, the listener registry operations (`on`, `removeListener`,
`removeAllListeners`) and the argument validation of `NAN_METHOD(open)` are
translated into pure Lean functions.  Mutex discipline is captured by
annotating every session-state mutation and every user-callback invocation
with the boolean "is the session mutex held at this point", read off the
lexical `MutexLocker` scopes of the source.
-/

set_option autoImplicit false

namespace Uma8

/-- `Iso::PacketSize` in `uma8.cpp`. -/
def PacketSize : Nat := 24

/-- `Iso::NumPackets` in `uma8.cpp`. -/
def NumPackets : Nat := 100

/-- `Iso::NumTransfer` in `uma8.cpp`. -/
def NumTransfer : Nat := 10

/-- A byte (`uint8_t`). -/
abbrev Byte := Fin 256

/-- `libusb_transfer_status` values relevant to the driver. -/
inductive TransferStatus where
  | completed
  | error
  | timedOut
  | cancelled
  | stall
  | noDevice
  | overflow
  deriving DecidableEq, Repr

/-- The session-state variables mutated by the driver
(`Input::datas`, `Input::metas`, `Input::error`, `Input::stopped`,
`Input::pendingCancels`). -/
inductive MutVar where
  | datas
  | metas
  | error
  | stopped
  | pendingCancels
  deriving DecidableEq, Repr

/-- Callback identities (`shared_ptr<Nan::Callback>`, compared by the
identity of the underlying JS function). -/
abbrev Cb := Nat

/-- An observable step of the driver code: a session-state mutation, an
invocation of a user callback registered under an event name, or a JS
throw of a pending error string. -/
inductive Action where
  | mutate (v : MutVar)
  | invoke (event : String) (cb : Cb)
  | throwErr (msg : String)
  deriving DecidableEq, Repr

/-- A step together with whether the session mutex is held when it runs
(determined by the lexical `MutexLocker` scopes of the source). -/
structure Step where
  action : Action
  mutexHeld : Bool
  deriving DecidableEq, Repr

/-- `Input::Metadata`: `{ uint8_t vad, direction; uint16_t angle; }`. -/
structure Metadata where
  vad : Byte
  direction : Byte
  angle : Nat
  deriving DecidableEq, Repr

/-- `Input::Data`: an owned byte buffer plus the number of bytes written. -/
structure Frame where
  data : List Byte
  size : Nat
  deriving DecidableEq, Repr

/-- Result of `Input::irqCallback`: the metadata record pushed onto
`input->metas` (if any), the annotated mutation steps, whether the transfer
was resubmitted, and whether `pendingCancels` was decremented. -/
structure IrqResult where
  enq : Option Metadata
  steps : List Step
  resubmitted : Bool
  decPending : Bool
  deriving DecidableEq, Repr

/-- `Input::irqCallback` (uma8.cpp lines 292-325).  The transfer carries a
64-byte buffer and reports `actual_length` received bytes.  In the
`CANCELLED` branch the `--input->pendingCancels` runs with no
`MutexLocker` in scope, hence `mutexHeld := false` on that step; the
`metas.push_back` runs under a `MutexLocker`. -/
def irqCallback (status : TransferStatus) (actual_length : Nat)
    (buffer : Fin 64 → Byte) : IrqResult :=
  if status != .completed then
    if status == .cancelled then
      { enq := none, steps := [⟨.mutate .pendingCancels, false⟩],
        resubmitted := false, decPending := true }
    else
      { enq := none, steps := [], resubmitted := false, decPending := false }
  else if actual_length ≥ 6 then
    if buffer 0 == 0x06 && buffer 1 == 0x36 then
      { enq := some { vad := buffer 2, direction := buffer 5,
                      angle := ((buffer 3).val <<< 8) ||| (buffer 4).val },
        steps := [⟨.mutate .metas, true⟩], resubmitted := true, decPending := false }
    else
      { enq := none, steps := [], resubmitted := true, decPending := false }
  else
    { enq := none, steps := [], resubmitted := true, decPending := false }

/-- The JS object built for a metadata record by the `uv_async` handler:
`{ vad: Boolean, angle: Number, direction: Number }`. -/
structure JsMetadata where
  vad : Bool
  angle : Nat
  direction : Nat
  deriving DecidableEq, Repr

/-- The `uv_async` handler's conversion of a `Metadata` record to the JS
object handed to listeners (uma8.cpp lines 211-215):
`vad` is `meta.vad == 1`, `angle` and `direction` are passed as numbers. -/
def deliverMetadata (m : Metadata) : JsMetadata :=
  { vad := m.vad == 1, angle := m.angle, direction := m.direction.val }

/-- One isochronous packet as seen by `transferCallback`: its per-packet
status and its `PacketSize`-byte buffer slot. -/
structure IsoPacket where
  status : TransferStatus
  payload : Fin PacketSize → Byte

/-- State of the copy loop of `Input::transferCallback`: bytes copied so
far (`cur - data` = `bytes`), the overflow-error flag, the sequence of
assignments to `input->error`, and the annotated mutation steps. -/
structure IsoLoopOut where
  data : List Byte
  bytes : Nat
  err : Bool
  errs : List String
  steps : List Step
  deriving Repr

/-- The packet loop of `Input::transferCallback` (uma8.cpp lines 256-277)
over the remaining packets, given the output-buffer size and the bytes
already written.  A non-`COMPLETED` packet assigns
`input->error = "incomplete iso xfr"` under a `MutexLocker` and is skipped;
if `cur + PacketSize > end` the loop assigns `"overflow in iso xfr"`, sets
the error flag and breaks; otherwise `PacketSize` bytes of the packet's
buffer are copied and the cursor advances. -/
def isoCopyLoop (size : Nat) : List IsoPacket → Nat → IsoLoopOut
  | [], bytes => ⟨[], bytes, false, [], []⟩
  | p :: ps, bytes =>
    if p.status != .completed then
      let rest := isoCopyLoop size ps bytes
      ⟨rest.data, rest.bytes, rest.err,
        "incomplete iso xfr" :: rest.errs, ⟨.mutate .error, true⟩ :: rest.steps⟩
    else if bytes + PacketSize > size then
      ⟨[], bytes, true, ["overflow in iso xfr"], [⟨.mutate .error, true⟩]⟩
    else
      let rest := isoCopyLoop size ps (bytes + PacketSize)
      ⟨List.ofFn p.payload ++ rest.data, rest.bytes, rest.err, rest.errs, rest.steps⟩

/-- Result of `Input::transferCallback`: the frame pushed onto
`input->datas` (if any), the sequence of assignments to `input->error`,
the annotated mutation steps, whether the transfer was resubmitted, and
whether `pendingCancels` was decremented. -/
structure TCResult where
  enq : Option Frame
  errs : List String
  steps : List Step
  resubmitted : Bool
  decPending : Bool
  deriving Repr

/-- `Input::transferCallback` (uma8.cpp lines 238-290).  In the
`CANCELLED` branch `--input->pendingCancels` runs with no `MutexLocker`
in scope (`mutexHeld := false`).  Otherwise the output buffer has size
`PacketSize * num_iso_packets`, the copy loop runs, and unless the
overflow flag was set the frame `{data, bytes}` is pushed onto
`input->datas` under a `MutexLocker`. -/
def transferCallback (status : TransferStatus) (packets : List IsoPacket) : TCResult :=
  if status == .cancelled then
    { enq := none, errs := [], steps := [⟨.mutate .pendingCancels, false⟩],
      resubmitted := false, decPending := true }
  else
    let size := PacketSize * packets.length
    let out := isoCopyLoop size packets 0
    if out.err then
      { enq := none, errs := out.errs, steps := out.steps,
        resubmitted := true, decPending := false }
    else
      { enq := some { data := out.data, size := out.bytes }, errs := out.errs,
        steps := out.steps ++ [⟨.mutate .datas, true⟩],
        resubmitted := true, decPending := false }

/-- The listener registry `Input::ons`
(`std::unordered_map<std::string, std::vector<shared_ptr<Nan::Callback>>>`):
a finite map from event name to the ordered list of registered callbacks,
`none` meaning the name has no entry. -/
abbrev Registry := String → Option (List Cb)

/-- `NAN_METHOD(on)` (uma8.cpp lines 490-493): `input->ons[name].push_back(cb)`.
`operator[]` default-inserts an empty list when the name is absent, then the
callback is appended at the end. -/
def onListener (r : Registry) (name : String) (cb : Cb) : Registry :=
  fun n => if n = name then some (((r name).getD []) ++ [cb]) else r n

/-- Remove the first occurrence of `cb`; `none` when there is none. -/
def removeFirst (cb : Cb) : List Cb → Option (List Cb)
  | [] => none
  | c :: cs => if c = cb then some cs else (removeFirst cb cs).map (c :: ·)

/-- The reverse scan of `NAN_METHOD(removeListener)` (`rbegin`/`rend`):
remove the most recently added occurrence of `cb`; `none` when there is
no match. -/
def removeLastMatch (cb : Cb) (l : List Cb) : Option (List Cb) :=
  (removeFirst cb l.reverse).map List.reverse

/-- `NAN_METHOD(removeListener)` (uma8.cpp lines 495-533): returns the new
registry and the boolean returned to JS.  If the name has no entry, return
`false`.  Otherwise scan the list from the back for the first callback equal
to `cb`; erase it, erase the name entirely if the list became empty, and
return `true`; return `false` if no callback matched. -/
def removeListener (r : Registry) (name : String) (cb : Cb) : Registry × Bool :=
  match r name with
  | none => (r, false)
  | some l =>
    match removeLastMatch cb l with
    | none => (r, false)
    | some l' =>
      if l' = [] then (fun n => if n = name then none else r n, true)
      else (fun n => if n = name then some l' else r n, true)

/-- `NAN_METHOD(removeAllListeners)` (uma8.cpp lines 535-553): erase the
name's entry if present and return whether it existed. -/
def removeAllListeners (r : Registry) (name : String) : Registry × Bool :=
  match r name with
  | none => (r, false)
  | some _ => (fun n => if n = name then none else r n, true)

/-- `input->ons[name]` as evaluated in the `uv_async` delivery handler:
`operator[]` inserts an empty callback list when the name is absent and
leaves the map unchanged otherwise. -/
def deliverTouch (r : Registry) (name : String) : Registry :=
  fun n => if n = name then some ((r name).getD []) else r n

/-- The audio loop of the `uv_async` handler (uma8.cpp lines 181-198): for
each pending frame, look up `input->ons["audio"]` (via `operator[]`, which
default-inserts) and call every registered callback.  The whole handler body
runs under the `MutexLocker` taken at its top, so every step is annotated
`mutexHeld := true`. -/
def asyncAudioLoop (r : Registry) : List Frame → List Step × Registry
  | [] => ([], r)
  | _f :: fs =>
    let r1 := deliverTouch r "audio"
    let invokes := ((r1 "audio").getD []).map fun cb => Step.mk (.invoke "audio" cb) true
    let rest := asyncAudioLoop r1 fs
    (invokes ++ rest.1, rest.2)

/-- The metadata loop of the `uv_async` handler (uma8.cpp lines 204-225),
analogous to the audio loop with event name `"metadata"`. -/
def asyncMetaLoop (r : Registry) : List Metadata → List Step × Registry
  | [] => ([], r)
  | _m :: ms =>
    let r1 := deliverTouch r "metadata"
    let invokes := ((r1 "metadata").getD []).map fun cb => Step.mk (.invoke "metadata" cb) true
    let rest := asyncMetaLoop r1 ms
    (invokes ++ rest.1, rest.2)

/-- Result of one run of the `uv_async` delivery handler: the annotated
steps, the registry after the handler (as mutated by `operator[]`), and the
error string thrown to JS, if any. -/
structure AsyncResult where
  steps : List Step
  ons : Registry
  thrown : Option String

/-- The `uv_async` delivery handler installed in `Input::open`
(uma8.cpp lines 175-233).  It locks the session mutex on entry and holds it
for the entire body: draining `datas` (invoking the `"audio"` listeners per
frame, then clearing), draining `metas` (likewise for `"metadata"`), and
throwing and clearing the pending error string. -/
def asyncHandler (datas : List Frame) (metas : List Metadata) (error : String)
    (r : Registry) : AsyncResult :=
  let a : List Step × Registry :=
    if datas.isEmpty then ([], r)
    else
      let l := asyncAudioLoop r datas
      (l.1 ++ [⟨.mutate .datas, true⟩], l.2)
  let m : List Step × Registry :=
    if metas.isEmpty then ([], a.2)
    else
      let l := asyncMetaLoop a.2 metas
      (l.1 ++ [⟨.mutate .metas, true⟩], l.2)
  let e : List Step × Option String :=
    if error.isEmpty then ([], none)
    else ([⟨.throwErr error, true⟩, ⟨.mutate .error, true⟩], some error)
  { steps := a.1 ++ m.1 ++ e.1, ons := m.2, thrown := e.2 }

/-- The single mutation of `Input::~Input` (uma8.cpp lines 74-77):
`stopped = true` under a `MutexLocker`. -/
def destructorSteps : List Step := [⟨.mutate .stopped, true⟩]

/-- The mutation steps of one iteration of the worker loop in `Input::run`
(uma8.cpp lines 374-389): under the `MutexLocker`, when `stopped` is set and
`pendingCancels == -1`, `pendingCancels` is set to `1 + NumTransfer` and the
cancels are issued. -/
def runLoopIterationSteps (stopped : Bool) (pendingCancels : Int) : List Step :=
  if stopped then
    if pendingCancels = -1 then [⟨.mutate .pendingCancels, true⟩] else []
  else []

/-- The iso-transfer allocation/submission loop of `Input::run`
(uma8.cpp lines 333-353), parameterised by which allocations and
submissions succeed.  An allocation failure assigns `input->error` under a
`MutexLocker` and aborts the worker (second component `true`); a submission
failure assigns `input->error` under a `MutexLocker` and continues. -/
def isoStartupLoop (isoAlloc isoSubmit : Nat → Bool) (i : Nat) : Nat → List Step × Bool
  | 0 => ([], false)
  | n + 1 =>
    if !(isoAlloc i) then ([⟨.mutate .error, true⟩], true)
    else
      let rest := isoStartupLoop isoAlloc isoSubmit (i + 1) n
      ((if isoSubmit i then [] else [⟨.mutate .error, true⟩]) ++ rest.1, rest.2)

/-- The startup section of `Input::run` (uma8.cpp lines 331-370): the iso
loop followed, unless it aborted, by the irq transfer allocation and
submission, whose failures likewise assign `input->error` under a
`MutexLocker`. -/
def runStartupSteps (isoAlloc isoSubmit : Nat → Bool) (irqAlloc irqSubmit : Bool) :
    List Step :=
  let iso := isoStartupLoop isoAlloc isoSubmit 0 NumTransfer
  if iso.2 then iso.1
  else
    iso.1 ++
      (if !irqAlloc then [⟨.mutate .error, true⟩]
       else if !irqSubmit then [⟨.mutate .error, true⟩] else [])

/-- A JS value as far as the `open` binding inspects it: an integer-valued
number, or anything else (`IsUint32` is false for the latter). -/
inductive JsVal where
  | intV (i : Int)
  | nonInt
  deriving DecidableEq, Repr

/-- `v8::Value::IsUint32`: the value is an integer in `[0, 2^32)`. -/
def isUint32 : JsVal → Bool
  | .intV i => decide (0 ≤ i ∧ i < 4294967296)
  | .nonInt => false

/-- `v8::Uint32::Value()` for a value satisfying `IsUint32`. -/
def uint32Value : JsVal → Nat
  | .intV i => i.toNat
  | .nonInt => 0

/-- The second argument of `NAN_METHOD(open)`: the `bus` and `port`
properties of the options object (`none` = property absent). -/
structure OpenArgs where
  bus : Option JsVal
  port : Option JsVal
  deriving DecidableEq, Repr

/-- Outcome of the `open` binding's argument handling: a synchronous JS
throw, or a call of `Input::open(uint8_t bus, uint8_t port)` with the
given truncated values. -/
inductive OpenOutcome where
  | thrown (msg : String)
  | proceed (bus port : Nat)
  deriving DecidableEq, Repr

/-- The argument validation of `NAN_METHOD(open)` (uma8.cpp lines 412-435):
require the `bus` and `port` properties to exist and to satisfy `IsUint32`,
then call `Input::open` with the `uint32` values implicitly converted to
`uint8_t` (reduction modulo 256). -/
def openMethod (args : OpenArgs) : OpenOutcome :=
  match args.bus with
  | none => .thrown "Need a bus value"
  | some busV =>
    match args.port with
    | none => .thrown "Need a port value"
    | some portV =>
      if !(isUint32 busV) then .thrown "Bus needs to be an int"
      else if !(isUint32 portV) then .thrown "Port needs to be an int"
      else .proceed (uint32Value busV % 256) (uint32Value portV % 256)

/-- `on` iterated `n` times with the same name and callback. -/
def onIter (r : Registry) (name : String) (cb : Cb) : Nat → Registry
  | 0 => r
  | n + 1 => onListener (onIter r name cb n) name cb

/-- Registry after `k` repeated `removeListener` calls with the same name
and callback. -/
def removeIterReg (r : Registry) (name : String) (cb : Cb) : Nat → Registry
  | 0 => r
  | k + 1 => (removeListener (removeIterReg r name cb k) name cb).1

/-- Concrete 64-byte irq buffer `[06 36 01 00 B4 02 0 ...]`
(spec scenario "Metadata parsing"). -/
def c1buf : Fin 64 → Byte := fun i =>
  if i = 0 then 0x06 else if i = 1 then 0x36 else if i = 2 then 1
  else if i = 3 then 0 else if i = 4 then 0xB4 else if i = 5 then 2 else 0

/-- A completed iso packet with constant payload byte 7. -/
def okPkt : IsoPacket := ⟨.completed, fun _ => 7⟩

/-- An iso packet whose per-packet status is `ERROR`. -/
def badPkt : IsoPacket := ⟨.error, fun _ => 0⟩

/-- Ten packets with the one at index 3 errored
(spec scenario "Partial iso failure"). -/
def exPkts10 : List IsoPacket :=
  List.replicate 3 okPkt ++ [badPkt] ++ List.replicate 6 okPkt

/-- A registry with one `"audio"` listener. -/
def regAudio7 : Registry := fun n => if n = "audio" then some [7] else none

/-- A registry with one `"metadata"` listener. -/
def regMeta3 : Registry := fun n => if n = "metadata" then some [3] else none

/-- A registry in which `"x"` is present with an empty callback list (the
state `operator[]` leaves behind after a delivery with no listeners). -/
def regEmptyX : Registry := fun n => if n = "x" then some [] else none

/-- A registry with one `"y"` listener. -/
def regY9 : Registry := fun n => if n = "y" then some [9] else none

/-- The empty registry. -/
def regNone : Registry := fun _ => none

/-- An audio frame value. -/
def exFrame : Frame := ⟨[], 0⟩

/-- A metadata record value. -/
def exMeta : Metadata := ⟨1, 2, 180⟩

/-! ### Helper lemmas -/

/-- Characterization of the copy loop when the output buffer can hold all
remaining packets: the loop never overflows, copies exactly the completed
packets' payloads in order, and records one `"incomplete iso xfr"` per
non-completed packet, each under the mutex. -/
theorem isoCopyLoop_spec (size : Nat) :
    ∀ (ps : List IsoPacket) (bytes : Nat), bytes + PacketSize * ps.length ≤ size →
      isoCopyLoop size ps bytes =
        { data := (ps.filter fun p => p.status == .completed).flatMap
            fun p => List.ofFn p.payload,
          bytes := bytes + PacketSize * (ps.filter fun p => p.status == .completed).length,
          err := false,
          errs := List.replicate (ps.filter fun p => p.status != .completed).length
            "incomplete iso xfr",
          steps := List.replicate (ps.filter fun p => p.status != .completed).length
            ⟨.mutate .error, true⟩ } := by
  intro ps
  induction ps with
  | nil => intro bytes _; simp [isoCopyLoop]
  | cons p ps ih =>
    intro bytes h
    have hps : PacketSize = 24 := rfl
    rw [List.length_cons] at h
    by_cases hc : p.status = .completed
    · have hover : ¬ (bytes + PacketSize > size) := by rw [hps] at h ⊢; omega
      have hrec := ih (bytes + PacketSize) (by rw [hps] at h ⊢; omega)
      simp only [isoCopyLoop, hc, bne_self_eq_false, Bool.false_eq_true, if_false, hover,
        if_false, hrec]
      simp [hc, List.filter_cons, mul_add, hps]
      omega
    · have hbne : (p.status != .completed) = true := by simp [hc]
      have hrec := ih bytes (by rw [hps] at h ⊢; omega)
      simp only [isoCopyLoop, hbne, if_true, hrec]
      simp [List.filter_cons, hc, List.replicate_succ]

/-- Full characterization of `transferCallback` for a non-cancelled
completion: the overflow branch is never taken, the frame made of the
completed packets' payloads is enqueued, and one error string per
non-completed packet is recorded under the mutex. -/
theorem transferCallback_spec (status : TransferStatus) (packets : List IsoPacket)
    (h : status ≠ .cancelled) :
    transferCallback status packets =
      { enq := some
          { data := (packets.filter fun p => p.status == .completed).flatMap
              fun p => List.ofFn p.payload,
            size := PacketSize * (packets.filter fun p => p.status == .completed).length },
        errs := List.replicate (packets.filter fun p => p.status != .completed).length
          "incomplete iso xfr",
        steps := List.replicate (packets.filter fun p => p.status != .completed).length
            ⟨.mutate .error, true⟩ ++ [⟨.mutate .datas, true⟩],
        resubmitted := true, decPending := false } := by
  have hc : (status == .cancelled) = false := by simp [h]
  have hspec := isoCopyLoop_spec (PacketSize * packets.length) packets 0
    (by simp)
  simp only [transferCallback, hc, Bool.false_eq_true, if_false, hspec]
  simp

/-- Case analysis of the interrupt callback's mutation steps: the unlocked
`pendingCancels` decrement when cancelled, the locked `metas` push on a
parsed metadata packet, nothing otherwise. -/
theorem irqCallback_steps (status : TransferStatus) (len : Nat) (buf : Fin 64 → Byte) :
    (irqCallback status len buf).steps =
      if status = .cancelled then [⟨.mutate .pendingCancels, false⟩]
      else if status = .completed ∧ 6 ≤ len ∧ buf 0 = 0x06 ∧ buf 1 = 0x36 then
        [⟨.mutate .metas, true⟩]
      else [] := by
  cases status <;> simp only [irqCallback] <;>
    first
    | (simp; done)
    | (by_cases h6 : 6 ≤ len
       · by_cases h0 : buf 0 = 0x06
         · by_cases h1 : buf 1 = 0x36
           · simp [h6, h0, h1]
           · simp [h6, h0, h1]
         · simp [h6, h0]
       · simp [h6])

/-! ### Claim theorems -/

/-- C1: for every completed interrupt transfer with `actual_length ≥ 6`
whose buffer starts with bytes `0x06, 0x36`, exactly one metadata record is
enqueued, with `vad = buffer[2]`, `angle = (buffer[3] << 8) | buffer[4]`
(high byte at index 3) and `direction = buffer[5]`, and it is delivered as
`{ vad : boolean equal to (vad byte == 1), angle : uint16,
direction : uint8 }`; every other completed interrupt packet enqueues
nothing. -/
theorem claim_C1 (status : TransferStatus) (len : Nat) (buf : Fin 64 → Byte) :
    ((irqCallback status len buf).enq =
      if status = .completed ∧ 6 ≤ len ∧ buf 0 = 0x06 ∧ buf 1 = 0x36 then
        some { vad := buf 2, direction := buf 5,
               angle := ((buf 3).val <<< 8) ||| (buf 4).val }
      else none) ∧
    (∀ m, (irqCallback status len buf).enq = some m →
      deliverMetadata m =
        { vad := m.vad == 1, angle := m.angle, direction := m.direction.val } ∧
      (deliverMetadata m).vad = (buf 2 == 1) ∧
      (deliverMetadata m).angle < 65536 ∧ (deliverMetadata m).direction < 256) := by
  have key : (irqCallback status len buf).enq =
      if status = .completed ∧ 6 ≤ len ∧ buf 0 = 0x06 ∧ buf 1 = 0x36 then
        some { vad := buf 2, direction := buf 5,
               angle := ((buf 3).val <<< 8) ||| (buf 4).val }
      else none := by
    cases status <;> simp only [irqCallback] <;>
      first
      | (simp; done)
      | (by_cases h6 : 6 ≤ len
         · by_cases h0 : buf 0 = 0x06
           · by_cases h1 : buf 1 = 0x36
             · simp [h6, h0, h1]
             · simp [h6, h0, h1]
           · simp [h6, h0]
         · simp [h6])
  refine ⟨key, ?_⟩
  intro m hm
  rw [key] at hm
  by_cases hcond : status = .completed ∧ 6 ≤ len ∧ buf 0 = 0x06 ∧ buf 1 = 0x36
  · rw [if_pos hcond] at hm
    cases hm
    refine ⟨rfl, rfl, ?_, ?_⟩
    · show ((buf 3).val <<< 8) ||| (buf 4).val < 65536
      have hb3 : (buf 3).val <<< 8 < 65536 := by
        rw [Nat.shiftLeft_eq]
        have := (buf 3).isLt
        norm_num
        omega
      have hb4 : (buf 4).val < 65536 := by
        have := (buf 4).isLt
        omega
      have : ((buf 3).val <<< 8) ||| (buf 4).val < 2 ^ 16 :=
        Nat.or_lt_two_pow (by norm_num [hb3]) (by norm_num [hb4])
      simpa using this
    · show (buf 5).val < 256
      exact (buf 5).isLt
  · rw [if_neg hcond] at hm
    cases hm

/-- Witness for C1 at the spec's metadata-parsing scenario: irq buffer
`[06 36 01 00 B4 02 ...]` with length 64 yields exactly the record
`{vad := 1, direction := 2, angle := 180}`, delivered with `vad = true`. -/
theorem claim_C1_witness :
    (irqCallback .completed 64 c1buf).enq =
      some { vad := 1, direction := 2, angle := 180 } ∧
    (deliverMetadata { vad := 1, direction := 2, angle := 180 }).vad = true ∧
    (deliverMetadata { vad := 1, direction := 2, angle := 180 }).angle < 65536 := by
  refine ⟨?_, ?_, ?_⟩
  · have h := (claim_C1 .completed 64 c1buf).1
    rw [h]
    decide
  · have h := (claim_C1 .completed 64 c1buf).2 { vad := 1, direction := 2, angle := 180 }
      (by decide)
    rw [h.2.1]
    decide
  · exact ((claim_C1 .completed 64 c1buf).2 { vad := 1, direction := 2, angle := 180 }
      (by decide)).2.2.1

/-- C2: for every non-cancelled isochronous transfer completion, the
enqueued frame's contents are the in-order concatenation of the
`PacketSize`-byte payloads of exactly the `COMPLETED` packets, one
`"incomplete iso xfr"` error string is recorded per non-completed packet,
and in particular 10 packets with exactly one non-completed one yield a
frame of `9 * 24 = 216` bytes. -/
theorem claim_C2 (status : TransferStatus) (packets : List IsoPacket)
    (h : status ≠ .cancelled) :
    (transferCallback status packets).enq =
      some { data := (packets.filter fun p => p.status == .completed).flatMap
               fun p => List.ofFn p.payload,
             size := PacketSize * (packets.filter fun p => p.status == .completed).length } ∧
    (transferCallback status packets).errs =
      List.replicate (packets.filter fun p => p.status != .completed).length
        "incomplete iso xfr" ∧
    (packets.length = 10 → (packets.filter fun p => p.status != .completed).length = 1 →
      ∃ f, (transferCallback status packets).enq = some f ∧ f.size = 216) := by
  have hspec := transferCallback_spec status packets h
  refine ⟨by rw [hspec], by rw [hspec], ?_⟩
  intro hlen hbad
  refine ⟨_, by rw [hspec], ?_⟩
  show PacketSize * (packets.filter fun p => p.status == .completed).length = 216
  have hsplit := List.length_eq_length_filter_add (l := packets)
    (fun p => p.status == .completed)
  have hbad' : (packets.filter fun p => !(p.status == .completed)).length = 1 := by
    simpa [bne] using hbad
  have h9 : (packets.filter fun p => p.status == .completed).length = 9 := by
    simp only at hsplit
    omega
  rw [h9]
  rfl

/-- Witness for C2 at the spec's partial-iso-failure scenario: 10 packets,
the one at index 3 errored, give a 216-byte frame. -/
theorem claim_C2_witness :
    (TransferStatus.completed ≠ TransferStatus.cancelled) ∧
    exPkts10.length = 10 ∧
    (exPkts10.filter fun p => p.status != .completed).length = 1 ∧
    ∃ f, (transferCallback .completed exPkts10).enq = some f ∧ f.size = 216 :=
  ⟨by decide, by decide, by decide,
    (claim_C2 .completed exPkts10 (by decide)).2.2 (by decide) (by decide)⟩

/-- C3 counterexample: a transfer whose only packet has a non-completed
status still enqueues a frame, of size 0 — which is not `24 * k` for any
`1 ≤ k ≤ NumPackets`.  (The error flag is set only in the overflow branch,
so the `Data{data, bytes}` push happens even when no packet completed.) -/
theorem claim_C3_counterexample :
    (transferCallback .completed [badPkt]).enq = some { data := [], size := 0 } ∧
    ¬ ∃ k, 1 ≤ k ∧ k ≤ NumPackets ∧ (0 : Nat) = PacketSize * k := by
  constructor
  · decide
  · rintro ⟨k, hk1, -, h0⟩
    have hps : PacketSize = 24 := rfl
    rw [hps] at h0
    omega

/-- C3 (amended): every audio frame enqueued for delivery by a
non-cancelled completion of a transfer with at most `NumPackets` packets
has size `24 * k` for some `0 ≤ k ≤ NumPackets`; a frame may be empty when
no packet completed. -/
theorem claim_C3 (status : TransferStatus) (packets : List IsoPacket)
    (hs : status ≠ .cancelled) (hlen : packets.length ≤ NumPackets) :
    ∀ f, (transferCallback status packets).enq = some f →
      ∃ k, k ≤ NumPackets ∧ f.size = PacketSize * k := by
  intro f hf
  rw [transferCallback_spec status packets hs] at hf
  obtain rfl : f = _ := (Option.some.injEq _ _ ▸ hf).symm
  refine ⟨(packets.filter fun p => p.status == .completed).length, ?_, rfl⟩
  exact le_trans (List.length_filter_le _ packets) hlen

/-- Witness for C3 (amended) at a single completed packet: the frame has
size `24 = 24 * 1`. -/
theorem claim_C3_witness :
    (TransferStatus.completed ≠ TransferStatus.cancelled) ∧
    ([okPkt] : List IsoPacket).length ≤ NumPackets ∧
    ∃ k, k ≤ NumPackets ∧
      (Frame.mk (List.ofFn okPkt.payload) (PacketSize * 1)).size = PacketSize * k :=
  ⟨by decide, by decide,
    claim_C3 .completed [okPkt] (by decide) (by decide) _ (by decide)⟩

/-- C9: in the isochronous completion handler the overflow branch is
unreachable — for every non-cancelled completion the frame is enqueued
(never dropped) and `"overflow in iso xfr"` is never recorded, because the
output buffer has size `PacketSize * num_iso_packets` and each copied
packet advances the cursor by exactly `PacketSize` bytes. -/
theorem claim_C9 (status : TransferStatus) (packets : List IsoPacket)
    (h : status ≠ .cancelled) :
    (transferCallback status packets).enq.isSome = true ∧
    "overflow in iso xfr" ∉ (transferCallback status packets).errs := by
  rw [transferCallback_spec status packets h]
  refine ⟨rfl, ?_⟩
  intro hmem
  have := (List.eq_of_mem_replicate hmem)
  simp at this

/-- Witness for C9 at a transfer of 100 packets, one errored: the frame is
enqueued and no overflow error is recorded. -/
theorem claim_C9_witness :
    (TransferStatus.completed ≠ TransferStatus.cancelled) ∧
    ((transferCallback .completed (badPkt :: List.replicate 99 okPkt)).enq.isSome = true ∧
     "overflow in iso xfr" ∉
       (transferCallback .completed (badPkt :: List.replicate 99 okPkt)).errs) :=
  ⟨by decide, claim_C9 .completed (badPkt :: List.replicate 99 okPkt) (by decide)⟩

/-- Every step of the copy loop runs under the mutex (both error
assignments have their own `MutexLocker`). -/
theorem isoCopyLoop_steps_held (size : Nat) :
    ∀ (ps : List IsoPacket) (bytes : Nat) (s : Step),
      s ∈ (isoCopyLoop size ps bytes).steps → s.mutexHeld = true := by
  intro ps
  induction ps with
  | nil => intro bytes s hs; simp [isoCopyLoop] at hs
  | cons p ps ih =>
    intro bytes s hs
    simp only [isoCopyLoop] at hs
    by_cases hc : (p.status != .completed) = true
    · rw [if_pos hc] at hs
      rcases List.mem_cons.mp hs with h | h
      · rw [h]
      · exact ih bytes s h
    · rw [if_neg hc] at hs
      by_cases hover : bytes + PacketSize > size
      · rw [if_pos hover] at hs
        rcases List.mem_singleton.mp hs with rfl
        rfl
      · rw [if_neg hover] at hs
        exact ih (bytes + PacketSize) s hs

/-- Every step of the audio delivery loop runs under the mutex. -/
theorem asyncAudioLoop_steps_held :
    ∀ (fs : List Frame) (r : Registry) (s : Step),
      s ∈ (asyncAudioLoop r fs).1 → s.mutexHeld = true := by
  intro fs
  induction fs with
  | nil => intro r s hs; simp [asyncAudioLoop] at hs
  | cons f fs ih =>
    intro r s hs
    simp only [asyncAudioLoop] at hs
    rcases List.mem_append.mp hs with h | h
    · rcases List.mem_map.mp h with ⟨cb, -, rfl⟩
      rfl
    · exact ih _ s h

/-- Every step of the metadata delivery loop runs under the mutex. -/
theorem asyncMetaLoop_steps_held :
    ∀ (ms : List Metadata) (r : Registry) (s : Step),
      s ∈ (asyncMetaLoop r ms).1 → s.mutexHeld = true := by
  intro ms
  induction ms with
  | nil => intro r s hs; simp [asyncMetaLoop] at hs
  | cons m ms ih =>
    intro r s hs
    simp only [asyncMetaLoop] at hs
    rcases List.mem_append.mp hs with h | h
    · rcases List.mem_map.mp h with ⟨cb, -, rfl⟩
      rfl
    · exact ih _ s h

/-- Every step of the `uv_async` delivery handler runs under the
`MutexLocker` taken at its top. -/
theorem asyncHandler_steps_held (datas : List Frame) (metas : List Metadata)
    (error : String) (r : Registry) :
    ∀ s ∈ (asyncHandler datas metas error r).steps, s.mutexHeld = true := by
  intro s hs
  simp only [asyncHandler] at hs
  rcases List.mem_append.mp hs with h | h
  · rcases List.mem_append.mp h with h1 | h2
    · by_cases hd : datas.isEmpty
      · rw [if_pos hd] at h1; simp at h1
      · rw [if_neg hd] at h1
        rcases List.mem_append.mp h1 with ha | ha
        · exact asyncAudioLoop_steps_held datas r s ha
        · rcases List.mem_singleton.mp ha with rfl; rfl
    · by_cases hm : metas.isEmpty
      · rw [if_pos hm] at h2; simp at h2
      · rw [if_neg hm] at h2
        rcases List.mem_append.mp h2 with ha | ha
        · exact asyncMetaLoop_steps_held metas _ s ha
        · rcases List.mem_singleton.mp ha with rfl; rfl
  · by_cases he : error.isEmpty
    · rw [if_pos he] at h; simp at h
    · rw [if_neg he] at h
      rcases List.mem_cons.mp h with rfl | h
      · rfl
      · rcases List.mem_singleton.mp h with rfl; rfl

/-- Every step of the iso startup loop runs under the mutex. -/
theorem isoStartupLoop_steps_held (isoAlloc isoSubmit : Nat → Bool) :
    ∀ (n i : Nat) (s : Step),
      s ∈ (isoStartupLoop isoAlloc isoSubmit i n).1 → s.mutexHeld = true := by
  intro n
  induction n with
  | zero => intro i s hs; simp [isoStartupLoop] at hs
  | succ n ih =>
    intro i s hs
    simp only [isoStartupLoop] at hs
    by_cases ha : isoAlloc i
    · rw [if_neg (by simp [ha])] at hs
      rcases List.mem_append.mp hs with h | h
      · by_cases hsub : isoSubmit i
        · rw [if_pos hsub] at h; simp at h
        · rw [if_neg hsub] at h
          rcases List.mem_singleton.mp h with rfl; rfl
      · exact ih (i + 1) s h
    · rw [if_pos (by simp [ha])] at hs
      rcases List.mem_singleton.mp hs with rfl; rfl

/-- Every step of the worker startup section runs under the mutex. -/
theorem runStartupSteps_held (isoAlloc isoSubmit : Nat → Bool)
    (irqAlloc irqSubmit : Bool) :
    ∀ s ∈ runStartupSteps isoAlloc isoSubmit irqAlloc irqSubmit,
      s.mutexHeld = true := by
  intro s hs
  simp only [runStartupSteps] at hs
  by_cases hab : (isoStartupLoop isoAlloc isoSubmit 0 NumTransfer).2
  · rw [if_pos hab] at hs
    exact isoStartupLoop_steps_held isoAlloc isoSubmit NumTransfer 0 s hs
  · rw [if_neg hab] at hs
    rcases List.mem_append.mp hs with h | h
    · exact isoStartupLoop_steps_held isoAlloc isoSubmit NumTransfer 0 s h
    · split at h
      · rcases List.mem_singleton.mp h with rfl; rfl
      · split at h
        · rcases List.mem_singleton.mp h with rfl; rfl
        · simp at h

/-- C4 counterexample: delivering one pending audio frame to a registered
`"audio"` listener produces an invocation step with the mutex held — the
`MutexLocker` of the `uv_async` handler spans the whole body, including
`cb->Call` — so it is false that user code is never executed under the
mutex. -/
theorem claim_C4_counterexample :
    (⟨.invoke "audio" 7, true⟩ : Step) ∈ (asyncHandler [exFrame] [] "" regAudio7).steps ∧
    ¬ (∀ s ∈ (asyncHandler [exFrame] [] "" regAudio7).steps,
        (∃ name cb, s.action = .invoke name cb) → s.mutexHeld = false) := by
  have hmem : (⟨.invoke "audio" 7, true⟩ : Step) ∈
      (asyncHandler [exFrame] [] "" regAudio7).steps := by decide
  refine ⟨hmem, fun hall => ?_⟩
  have := hall _ hmem ⟨"audio", 7, rfl⟩
  simp at this

/-- C4 (amended): the delivery handler runs its entire pass — queue drains,
clears, and every listener invocation — while holding the session mutex;
it never releases the lock before calling user callbacks. -/
theorem claim_C4 (datas : List Frame) (metas : List Metadata) (error : String)
    (r : Registry) :
    ∀ s ∈ (asyncHandler datas metas error r).steps, s.mutexHeld = true :=
  asyncHandler_steps_held datas metas error r

/-- Witness for C4 (amended): delivering a metadata record to a registered
`"metadata"` listener yields an invocation step, and the theorem shows it
carries the mutex. -/
theorem claim_C4_witness :
    (⟨.invoke "metadata" 3, true⟩ : Step) ∈
      (asyncHandler [] [exMeta] "" regMeta3).steps ∧
    (Step.mk (.invoke "metadata" 3) true).mutexHeld = true :=
  ⟨by decide, claim_C4 [] [exMeta] "" regMeta3 _ (by decide)⟩

/-- C5 counterexample: the `--pendingCancels` in the CANCELLED branches of
both completion callbacks runs with no `MutexLocker` in scope, refuting the
claim that every mutation of `pendingCancels` happens under the session
mutex. -/
theorem claim_C5_counterexample :
    (⟨.mutate .pendingCancels, false⟩ : Step) ∈ (transferCallback .cancelled []).steps ∧
    (⟨.mutate .pendingCancels, false⟩ : Step) ∈
      (irqCallback .cancelled 0 (fun _ => 0)).steps ∧
    ¬ (∀ s ∈ (transferCallback .cancelled []).steps,
        (∃ v, s.action = .mutate v) → s.mutexHeld = true) := by
  refine ⟨by decide, by decide, fun hall => ?_⟩
  have := hall ⟨.mutate .pendingCancels, false⟩ (by decide) ⟨.pendingCancels, rfl⟩
  simp at this

/-- C5 (amended): every mutation of the audio queue, the metadata queue,
the pending error string, the `stopped` flag and the `pendingCancels`
counter occurs while the session mutex is held, with the sole exception of
the `pendingCancels` decrements in the CANCELLED branches of the
isochronous and interrupt completion callbacks, which run without the
mutex. -/
theorem claim_C5 :
    (∀ (status : TransferStatus) (packets : List IsoPacket) (s : Step),
       s ∈ (transferCallback status packets).steps → ∀ v, s.action = .mutate v →
         (s.mutexHeld = true ∨ (v = .pendingCancels ∧ status = .cancelled))) ∧
    (∀ (status : TransferStatus) (len : Nat) (buf : Fin 64 → Byte) (s : Step),
       s ∈ (irqCallback status len buf).steps → ∀ v, s.action = .mutate v →
         (s.mutexHeld = true ∨ (v = .pendingCancels ∧ status = .cancelled))) ∧
    (∀ (datas : List Frame) (metas : List Metadata) (error : String) (r : Registry)
       (s : Step), s ∈ (asyncHandler datas metas error r).steps → s.mutexHeld = true) ∧
    (∀ s ∈ destructorSteps, s.mutexHeld = true) ∧
    (∀ (stopped : Bool) (pc : Int) (s : Step),
       s ∈ runLoopIterationSteps stopped pc → s.mutexHeld = true) ∧
    (∀ (isoAlloc isoSubmit : Nat → Bool) (irqAlloc irqSubmit : Bool) (s : Step),
       s ∈ runStartupSteps isoAlloc isoSubmit irqAlloc irqSubmit →
         s.mutexHeld = true) := by
  refine ⟨?_, ?_, ?_, ?_, ?_, ?_⟩
  · intro status packets s hs v hv
    by_cases hc : status = .cancelled
    · subst hc
      have hsteps : (transferCallback .cancelled packets).steps =
          [⟨.mutate .pendingCancels, false⟩] := rfl
      rw [hsteps] at hs
      rcases List.mem_singleton.mp hs with rfl
      injection hv with h
      exact Or.inr ⟨h.symm, rfl⟩
    · left
      rw [transferCallback_spec status packets hc] at hs
      simp only at hs
      rcases List.mem_append.mp hs with h | h
      · rw [List.eq_of_mem_replicate h]
      · rcases List.mem_singleton.mp h with rfl; rfl
  · intro status len buf s hs v hv
    rw [irqCallback_steps] at hs
    split at hs
    · rcases List.mem_singleton.mp hs with rfl
      injection hv with h
      rename_i hc
      exact Or.inr ⟨h.symm, hc⟩
    · split at hs
      · rcases List.mem_singleton.mp hs with rfl
        exact Or.inl rfl
      · simp at hs
  · intro datas metas error r s hs
    exact asyncHandler_steps_held datas metas error r s hs
  · intro s hs
    rcases List.mem_singleton.mp hs with rfl; rfl
  · intro stopped pc s hs
    simp only [runLoopIterationSteps] at hs
    split at hs
    · split at hs
      · rcases List.mem_singleton.mp hs with rfl; rfl
      · simp at hs
    · simp at hs
  · intro isoAlloc isoSubmit irqAlloc irqSubmit s hs
    exact runStartupSteps_held isoAlloc isoSubmit irqAlloc irqSubmit s hs

/-- Witness for C5 (amended) at a completed transfer with one packet: the
`datas` push step is in the step list and the theorem shows it is locked
(or exempt). -/
theorem claim_C5_witness :
    (⟨.mutate .datas, true⟩ : Step) ∈ (transferCallback .completed [okPkt]).steps ∧
    ((Step.mk (.mutate .datas) true).mutexHeld = true ∨
      (MutVar.datas = .pendingCancels ∧ TransferStatus.completed = .cancelled)) :=
  ⟨by decide, claim_C5.1 .completed [okPkt] _ (by decide) .datas rfl⟩

/-- C6 counterexample: `open` with `bus = 300` (outside `uint8` range but a
valid `uint32`) does not fail — it proceeds, calling `Input::open` with the
truncated bus value `300 % 256 = 44`. -/
theorem claim_C6_counterexample :
    openMethod { bus := some (.intV 300), port := some (.intV 0) } = .proceed 44 0 ∧
    (255 : Int) < 300 ∧ (44 : Nat) = 300 % 256 := by
  decide

/-- C6 (amended): `open` validates only that `bus` and `port` are present
and satisfy `IsUint32` (integers in `[0, 2^32)`); missing or non-`uint32`
values fail synchronously, but an in-range `uint32` value outside `uint8`
range proceeds with the value truncated modulo 256 instead of failing. -/
theorem claim_C6 :
    (∀ b p : Int, 0 ≤ b → b < 4294967296 → 0 ≤ p → p < 4294967296 →
       openMethod { bus := some (.intV b), port := some (.intV p) } =
         .proceed (b.toNat % 256) (p.toNat % 256)) ∧
    (∀ v w, isUint32 v = false →
       openMethod { bus := some v, port := some w } = .thrown "Bus needs to be an int") ∧
    (∀ v w, isUint32 v = true → isUint32 w = false →
       openMethod { bus := some v, port := some w } = .thrown "Port needs to be an int") ∧
    (∀ pv, openMethod { bus := none, port := pv } = .thrown "Need a bus value") ∧
    (∀ v, openMethod { bus := some v, port := none } = .thrown "Need a port value") := by
  refine ⟨?_, ?_, ?_, ?_, ?_⟩
  · intro b p hb0 hb1 hp0 hp1
    have hb : isUint32 (.intV b) = true := by simp [isUint32, hb0, hb1]
    have hp : isUint32 (.intV p) = true := by simp [isUint32, hp0, hp1]
    simp [openMethod, hb, hp, uint32Value]
  · intro v w hv
    simp [openMethod, hv]
  · intro v w hv hw
    simp [openMethod, hv, hw]
  · intro pv
    rfl
  · intro v
    rfl

/-- Witness for C6 (amended): `bus = 7`, `port = 3` proceed untruncated. -/
theorem claim_C6_witness :
    ((0 : Int) ≤ 7 ∧ (7 : Int) < 4294967296 ∧ (0 : Int) ≤ 3 ∧ (3 : Int) < 4294967296) ∧
    openMethod { bus := some (.intV 7), port := some (.intV 3) } =
      .proceed (Int.toNat 7 % 256) (Int.toNat 3 % 256) :=
  ⟨by decide, claim_C6.1 7 3 (by decide) (by decide) (by decide) (by decide)⟩

/-- `removeFirst` fails exactly when the callback is absent. -/
theorem removeFirst_eq_none_iff (cb : Cb) :
    ∀ l : List Cb, removeFirst cb l = none ↔ cb ∉ l := by
  intro l
  induction l with
  | nil => simp [removeFirst]
  | cons c cs ih =>
    simp only [removeFirst]
    by_cases hc : c = cb
    · simp [hc]
    · simp only [if_neg hc, Option.map_eq_none', ih, List.mem_cons]
      constructor
      · rintro hni (h | h)
        · exact hc h.symm
        · exact hni h
      · intro h
        exact fun hm => h (Or.inr hm)

/-- `removeFirst` removes the first occurrence. -/
theorem removeFirst_append (cb : Cb) :
    ∀ xs ys : List Cb, cb ∉ xs → removeFirst cb (xs ++ cb :: ys) = some (xs ++ ys) := by
  intro xs
  induction xs with
  | nil => intro ys _; simp [removeFirst]
  | cons x xs ih =>
    intro ys hx
    have hxcb : ¬ (x = cb) := fun h => hx (by simp [h])
    have hmem : cb ∉ xs := fun h => hx (List.mem_cons_of_mem x h)
    simp only [List.cons_append, removeFirst, if_neg hxcb]
    rw [show xs.append (cb :: ys) = xs ++ cb :: ys from rfl, ih ys hmem]
    rfl

/-- `removeLastMatch` fails exactly when the callback is absent. -/
theorem removeLastMatch_eq_none_iff (cb : Cb) (l : List Cb) :
    removeLastMatch cb l = none ↔ cb ∉ l := by
  simp [removeLastMatch, removeFirst_eq_none_iff]

/-- `removeLastMatch` removes the last occurrence: on `l₁ ++ cb :: l₂`
with no occurrence in `l₂` it yields `l₁ ++ l₂`. -/
theorem removeLastMatch_split (cb : Cb) (l₁ l₂ : List Cb) (h : cb ∉ l₂) :
    removeLastMatch cb (l₁ ++ cb :: l₂) = some (l₁ ++ l₂) := by
  have hrev : (l₁ ++ cb :: l₂).reverse = l₂.reverse ++ cb :: l₁.reverse := by
    simp
  rw [removeLastMatch, hrev,
    removeFirst_append cb l₂.reverse l₁.reverse (by simpa using h)]
  simp

/-- A successful `removeLastMatch` implies membership. -/
theorem removeLastMatch_isSome_iff (cb : Cb) (l : List Cb) :
    (removeLastMatch cb l).isSome = true ↔ cb ∈ l := by
  rw [Option.isSome_iff_ne_none, not_iff_comm, removeLastMatch_eq_none_iff]

/-- Iterating `on` with the same callback on a name that starts absent
builds the list `replicate n cb`. -/
theorem onIter_self (r : Registry) (name : String) (cb : Cb) (h : r name = none) :
    ∀ n, onIter r name cb n name =
      if n = 0 then none else some (List.replicate n cb) := by
  intro n
  induction n with
  | zero => simpa [onIter]
  | succ n ih =>
    simp only [onIter, onListener, if_pos rfl]
    rw [ih]
    by_cases hn : n = 0
    · subst hn; simp [List.replicate_succ]
    · rw [if_neg hn, if_neg (Nat.succ_ne_zero n)]
      simp [← List.replicate_succ']

/-- `removeListener` on a name with no entry returns `false` and leaves
the registry unchanged. -/
theorem removeListener_none (r : Registry) (name : String) (cb : Cb)
    (h : r name = none) : removeListener r name cb = (r, false) := by
  simp only [removeListener, h]

/-- `removeListener` on a name holding `replicate (m+1) cb` removes one
copy, erasing the entry when the last copy goes. -/
theorem removeListener_replicate (r : Registry) (name : String) (cb : Cb) (m : Nat)
    (h : r name = some (List.replicate (m + 1) cb)) :
    (removeListener r name cb).2 = true ∧
    (removeListener r name cb).1 name =
      (if m = 0 then none else some (List.replicate m cb)) := by
  have hsplit : removeLastMatch cb (List.replicate (m + 1) cb) =
      some (List.replicate m cb) := by
    have hrw : List.replicate (m + 1) cb = List.replicate m cb ++ cb :: [] := by
      simpa using List.replicate_succ' m cb
    rw [hrw, removeLastMatch_split cb (List.replicate m cb) [] (by simp)]
    simp
  simp only [removeListener, h, hsplit]
  by_cases hm : m = 0
  · subst hm; simp
  · have hne : ¬ (List.replicate m cb = []) := by simp [hm]
    simp [hne, hm]

/-- After `n` `on`-registrations on an initially absent name, `k` repeated
removals leave `replicate (n - k) cb` (the entry disappearing at `k = n`). -/
theorem removeIterState (r : Registry) (name : String) (cb : Cb) (n : Nat)
    (h : r name = none) :
    ∀ k, removeIterReg (onIter r name cb n) name cb k name =
      if n ≤ k then none else some (List.replicate (n - k) cb) := by
  intro k
  induction k with
  | zero =>
    simp only [removeIterReg]
    rw [onIter_self r name cb h n]
    by_cases hn : n = 0
    · simp [hn]
    · rw [if_neg hn, if_neg (by omega)]
      simp
  | succ k ih =>
    simp only [removeIterReg]
    by_cases hk : n ≤ k
    · rw [removeListener_none _ name cb (by rw [ih]; simp [hk])]
      show removeIterReg (onIter r name cb n) name cb k name = _
      rw [ih, if_pos hk, if_pos (by omega)]
    · have hm : removeIterReg (onIter r name cb n) name cb k name =
          some (List.replicate ((n - k - 1) + 1) cb) := by
        rw [ih, if_neg hk]
        have harith : n - k = n - k - 1 + 1 := by omega
        conv_lhs => rw [harith]
      rw [(removeListener_replicate _ name cb (n - k - 1) hm).2]
      by_cases hk1 : n - k - 1 = 0
      · rw [if_pos hk1, if_pos (by omega)]
      · rw [if_neg hk1, if_neg (by omega)]
        have harith : n - (k + 1) = n - k - 1 := by omega
        rw [harith]

/-- C7: `removeListener` returns `true` exactly when the name has an entry
containing a matching callback; on success it removes precisely the most
recently added match (erasing the name when its list empties) and touches
no other name; on failure it leaves the registry unchanged; and after `n`
`on`-registrations of the same callback on an initially absent name,
repeated removals return `true` exactly `n` times and then `false`. -/
theorem claim_C7 :
    (∀ (r : Registry) (name : String) (cb : Cb),
       (removeListener r name cb).2 = true ↔ ∃ l, r name = some l ∧ cb ∈ l) ∧
    (∀ (r : Registry) (name : String) (cb : Cb) (l₁ l₂ : List Cb),
       r name = some (l₁ ++ cb :: l₂) → cb ∉ l₂ →
         (removeListener r name cb).2 = true ∧
         (removeListener r name cb).1 name =
           (if l₁ ++ l₂ = [] then none else some (l₁ ++ l₂)) ∧
         (∀ n, n ≠ name → (removeListener r name cb).1 n = r n)) ∧
    (∀ (r : Registry) (name : String) (cb : Cb),
       (removeListener r name cb).2 = false → (removeListener r name cb).1 = r) ∧
    (∀ (r : Registry) (name : String) (cb : Cb) (n : Nat), r name = none →
       ∀ k, (removeListener (removeIterReg (onIter r name cb n) name cb k) name cb).2 =
              decide (k < n)) := by
  refine ⟨?_, ?_, ?_, ?_⟩
  · intro r name cb
    cases hr : r name with
    | none => simp [removeListener, hr]
    | some l =>
      cases hrm : removeLastMatch cb l with
      | none =>
        have hni : cb ∉ l := (removeLastMatch_eq_none_iff cb l).mp hrm
        simp [removeListener, hr, hrm, hni]
      | some l' =>
        have hmem : cb ∈ l := by
          rw [← removeLastMatch_isSome_iff cb l, hrm]
          rfl
        simp only [removeListener, hr, hrm]
        split <;> simp [hmem]
  · intro r name cb l₁ l₂ h hnotin
    have hsplit := removeLastMatch_split cb l₁ l₂ hnotin
    refine ⟨?_, ?_, ?_⟩
    · simp only [removeListener, h, hsplit]
      split <;> rfl
    · simp only [removeListener, h, hsplit]
      by_cases he : l₁ ++ l₂ = []
      · simp [he]
      · simp [he]
    · intro n hn
      simp only [removeListener, h, hsplit]
      split <;> simp [hn]
  · intro r name cb
    cases hr : r name with
    | none => simp [removeListener, hr]
    | some l =>
      cases hrm : removeLastMatch cb l with
      | none => simp [removeListener, hr, hrm]
      | some l' =>
        intro hfalse
        simp only [removeListener, hr, hrm] at hfalse
        split at hfalse <;> simp at hfalse
  · intro r name cb n h k
    by_cases hk : k < n
    · have hm : removeIterReg (onIter r name cb n) name cb k name =
          some (List.replicate ((n - k - 1) + 1) cb) := by
        rw [removeIterState r name cb n h k, if_neg (by omega)]
        have harith : n - k = n - k - 1 + 1 := by omega
        conv_lhs => rw [harith]
      rw [(removeListener_replicate _ name cb (n - k - 1) hm).1]
      simp [hk]
    · rw [removeListener_none _ name cb
        (by rw [removeIterState r name cb n h k]; simp [show n ≤ k by omega])]
      simp [hk]

/-- Witness for C7 at two registrations on the empty registry: the first
repeated removal (index 1) still returns `true`, matching `decide (1 < 2)`. -/
theorem claim_C7_witness :
    regNone "x" = none ∧
    (removeListener (removeIterReg (onIter regNone "x" 5 2) "x" 5 1) "x" 5).2 =
      decide (1 < 2) :=
  ⟨rfl, claim_C7.2.2.2 regNone "x" 5 2 rfl 1⟩

/-- C8 counterexample: if the registry already holds name `"x"` with an
empty callback list (the state delivery's `operator[]` creates), then
`on` followed by `removeListener` erases the name instead of restoring the
empty entry, so the round trip is not the identity on every registry
state. -/
theorem claim_C8_counterexample :
    (removeListener (onListener regEmptyX "x" 5) "x" 5).1 "x" = none ∧
    regEmptyX "x" = some [] ∧
    (removeListener (onListener regEmptyX "x" 5) "x" 5).1 ≠ regEmptyX := by
  have h1 : (removeListener (onListener regEmptyX "x" 5) "x" 5).1 "x" = none := by
    decide
  refine ⟨h1, rfl, fun heq => ?_⟩
  have h2 := congrFun heq "x"
  rw [h1] at h2
  simp [regEmptyX] at h2

/-- C8 (amended): for every registry state in which the name is either
absent or present with a nonempty list, `on` followed by `removeListener`
with the same callback restores the original state; and for every state,
`on` followed by `removeAllListeners` leaves the name absent.  (When the
name is present with an empty list, the round trip erases the name.) -/
theorem claim_C8 (r : Registry) (name : String) (cb : Cb) :
    ((r name = none ∨ ∃ l, r name = some l ∧ l ≠ []) →
      (removeListener (onListener r name cb) name cb).1 = r) ∧
    (removeAllListeners (onListener r name cb) name).1 name = none := by
  constructor
  · intro hstate
    have hon : (onListener r name cb) name = some (((r name).getD []) ++ [cb]) := by
      simp [onListener]
    have hrm : removeLastMatch cb (((r name).getD []) ++ [cb]) =
        some ((r name).getD []) := by
      have := removeLastMatch_split cb ((r name).getD []) [] (by simp)
      simpa using this
    funext n
    by_cases hn : n = name
    · subst hn
      rcases hstate with hnone | ⟨l, hl, hlne⟩
      · have hempty : ((r n).getD []) = [] := by rw [hnone]; rfl
        rw [hempty] at hrm
        simp only [removeListener, hon, hempty, hrm]
        simp [hnone]
      · have hgetD : ((r n).getD []) = l := by rw [hl]; rfl
        rw [hgetD] at hrm
        simp only [removeListener, hon, hgetD, hrm]
        simp [hlne, hl]
    · have honn : (onListener r name cb) n = r n := by simp [onListener, hn]
      simp only [removeListener, hon, hrm]
      split
      · simp [hn, honn]
      · simp [hn, honn]
  · have hon : (onListener r name cb) name = some (((r name).getD []) ++ [cb]) := by
      simp [onListener]
    simp only [removeAllListeners, hon]
    simp

/-- Witness for C8 (amended) at a registry holding one `"y"` listener:
after `on` and `removeListener` with callback 9 the registry equals the
original, and `removeAllListeners` after `on` leaves `"y"` absent. -/
theorem claim_C8_witness :
    (regY9 "y" = some [9] ∧ ([9] : List Cb) ≠ []) ∧
    (removeListener (onListener regY9 "y" 9) "y" 9).1 = regY9 ∧
    (removeAllListeners (onListener regY9 "y" 9) "y").1 "y" = none :=
  ⟨⟨rfl, by decide⟩,
    (claim_C8 regY9 "y" 9).1 (Or.inr ⟨[9], rfl, by decide⟩),
    (claim_C8 regY9 "y" 9).2⟩

/-- Registry effect of the audio delivery loop: nonempty frame lists force
the `"audio"` entry into existence (empty if absent), all other names are
untouched. -/
theorem asyncAudioLoop_reg (n : String) :
    ∀ (fs : List Frame) (r : Registry),
      (asyncAudioLoop r fs).2 n =
        if fs.isEmpty then r n
        else if n = "audio" then some ((r "audio").getD []) else r n := by
  intro fs
  induction fs with
  | nil => intro r; simp [asyncAudioLoop]
  | cons f fs ih =>
    intro r
    simp only [asyncAudioLoop, ih]
    by_cases hfs : fs.isEmpty
    · rw [if_pos hfs]
      simp [deliverTouch, List.isEmpty_cons]
    · rw [if_neg hfs]
      simp only [List.isEmpty_cons, Bool.false_eq_true, if_false]
      by_cases hn : n = "audio"
      · simp [hn, deliverTouch]
      · simp [hn, deliverTouch]

/-- Registry effect of the metadata delivery loop, analogous. -/
theorem asyncMetaLoop_reg (n : String) :
    ∀ (ms : List Metadata) (r : Registry),
      (asyncMetaLoop r ms).2 n =
        if ms.isEmpty then r n
        else if n = "metadata" then some ((r "metadata").getD []) else r n := by
  intro ms
  induction ms with
  | nil => intro r; simp [asyncMetaLoop]
  | cons m ms ih =>
    intro r
    simp only [asyncMetaLoop, ih]
    by_cases hms : ms.isEmpty
    · rw [if_pos hms]
      simp [deliverTouch, List.isEmpty_cons]
    · rw [if_neg hms]
      simp only [List.isEmpty_cons, Bool.false_eq_true, if_false]
      by_cases hn : n = "metadata"
      · simp [hn, deliverTouch]
      · simp [hn, deliverTouch]

/-- Registry returned by the delivery handler, as a composition of the two
loop effects. -/
theorem asyncHandler_ons (datas : List Frame) (metas : List Metadata)
    (error : String) (r : Registry) :
    (asyncHandler datas metas error r).ons =
      (if metas.isEmpty then id else fun rr => (asyncMetaLoop rr metas).2)
        ((if datas.isEmpty then id else fun rr => (asyncAudioLoop rr datas).2) r) := by
  simp only [asyncHandler]
  by_cases hd : datas.isEmpty <;> by_cases hm : metas.isEmpty <;> simp [hd, hm]

/-- C10: delivering an event mutates the listener registry — the handler's
`ons[name]` lookup default-inserts an empty list — so after an `"audio"`
frame (resp. `"metadata"` record) is delivered while the name never had a
listener, the registry holds an empty entry for the name and a subsequent
`removeAllListeners` for it returns `true` even though `on` was never
called with it. -/
theorem claim_C10 (r : Registry) (datas : List Frame) (metas : List Metadata)
    (error : String) :
    (r "audio" = none → datas ≠ [] →
       (asyncHandler datas metas error r).ons "audio" = some [] ∧
       (removeAllListeners ((asyncHandler datas metas error r).ons) "audio").2 = true) ∧
    (r "metadata" = none → metas ≠ [] →
       (asyncHandler datas metas error r).ons "metadata" = some [] ∧
       (removeAllListeners ((asyncHandler datas metas error r).ons) "metadata").2 = true) := by
  constructor
  · intro haudio hdne
    have hdf : datas.isEmpty = false := by
      rw [List.isEmpty_eq_false_iff_exists_mem]
      rcases datas with - | ⟨f, fs⟩
      · exact absurd rfl hdne
      · exact ⟨f, List.mem_cons_self f fs⟩
    have hons : (asyncHandler datas metas error r).ons "audio" = some [] := by
      rw [asyncHandler_ons]
      by_cases hme : metas.isEmpty
      · simp only [hme, if_true, hdf, Bool.false_eq_true, if_false, id]
        rw [asyncAudioLoop_reg "audio" datas r]
        simp [hdf, haudio]
      · simp only [hme, Bool.false_eq_true, if_false, hdf, id]
        rw [asyncMetaLoop_reg "audio" metas _]
        rw [if_neg (by simp [hme]), if_neg (by decide)]
        rw [asyncAudioLoop_reg "audio" datas r]
        simp [hdf, haudio]
    exact ⟨hons, by simp only [removeAllListeners, hons]⟩
  · intro hmeta hmne
    have hmf : metas.isEmpty = false := by
      rw [List.isEmpty_eq_false_iff_exists_mem]
      rcases metas with - | ⟨m, ms⟩
      · exact absurd rfl hmne
      · exact ⟨m, List.mem_cons_self m ms⟩
    have hons : (asyncHandler datas metas error r).ons "metadata" = some [] := by
      rw [asyncHandler_ons]
      simp only [hmf, Bool.false_eq_true, if_false]
      rw [asyncMetaLoop_reg "metadata" metas _]
      rw [if_neg (by simp [hmf]), if_pos rfl]
      by_cases hde : datas.isEmpty
      · simp only [hde, if_true, id]
        simp [hmeta]
      · simp only [hde, Bool.false_eq_true, if_false, id]
        rw [asyncAudioLoop_reg "metadata" datas r]
        rw [if_neg (by simp [hde]), if_neg (by decide)]
        simp [hmeta]
    exact ⟨hons, by simp only [removeAllListeners, hons]⟩

/-- Witness for C10: one audio frame delivered on the empty registry makes
`removeAllListeners(session, "audio")` return `true`. -/
theorem claim_C10_witness :
    regNone "audio" = none ∧ ([exFrame] : List Frame) ≠ [] ∧
    ((asyncHandler [exFrame] [] "" regNone).ons "audio" = some [] ∧
     (removeAllListeners ((asyncHandler [exFrame] [] "" regNone).ons) "audio").2 = true) :=
  ⟨rfl, by decide, (claim_C10 regNone [exFrame] [] "").1 rfl (by decide)⟩

end Uma8
